import Mathlib

/-!
Verification of the ECDSA builtin (`pkg/vm/builtins/ecdsa.go`) of a Cairo
virtual machine.  The builtin verifies STARK-curve ECDSA signatures as a side
effect of memory writes into its segment and exports AIR private inputs.

The embedding is parameterised over the external collaborators (the base
field, its square-root primitive, and the ECDSA verification primitive of the
curve library), exactly as the module consumes them.  The concrete modulus of
the scalar field is taken verbatim from the source.
-/

namespace CairoECDSA

/-- Error kinds produced by the builtin.  The Go code builds them with
`fmt.Errorf`; each constructor corresponds to one of the message strings, and
`verifyError` carries an error propagated from the external `Verify` call. -/
inductive ECDSAError where
  | notAFieldElement
  | invalidPublicKey
  | keyNotOnCurve
  | missingSignature
  | invalidSignature
  | verifyError (msg : String)
  | encodingError
  | readError
deriving DecidableEq, Repr

/-- A decoded signature: the two 32-byte components `R` and `S`, each viewed
as the natural number its big-endian bytes denote. -/
structure Signature where
  R : Nat
  S : Nat
deriving DecidableEq, Repr

/-- A memory value of the external VM memory: a field element together with a
flag telling whether the value is really a relocatable address (in which case
`FieldElement` extraction fails). -/
structure MemoryValue (F : Type) where
  Felt : F
  IsAddress : Bool
deriving DecidableEq, Repr

/-- Extraction of the field element of a memory value
(`MemoryValue.FieldElement`), failing on address values (external memory
interface). -/
def FieldElement {F : Type} (mv : MemoryValue F) : Except ECDSAError F :=
  if mv.IsAddress then .error .notAFieldElement else .ok mv.Felt

/-- The scalar-field prime order of the STARK curve, the literal decimal
string parsed in `GetAirPrivateInput`. -/
def frModulus : Nat :=
  3618502788666131213697322783095070105526743751716087489154079457884512865583

/-- Big-endian byte serialisation of a natural number on `k` bytes
(the shape of `fp.Element.Bytes()` for `k = 32`). -/
def beBytes : Nat → Nat → List Nat
  | 0, _ => []
  | k + 1, n => beBytes k (n / 256) ++ [n % 256]

/-- The natural number denoted by a big-endian byte list. -/
def ofBytes (bs : List Nat) : Nat :=
  bs.foldl (fun acc b => acc * 256 + b) 0

/-- Modelled from the spec: the canonical 64-byte signature decode of the
external curve library (`Signature.SetBytes`): the buffer is `r ‖ s`, each
half a 32-byte big-endian scalar that must be canonical, i.e. smaller than
the scalar-field order; otherwise decoding fails. -/
def sigSetBytes (bs : List Nat) : Option Signature :=
  if bs.length = 64 then
    let r := ofBytes (bs.take 32)
    let s := ofBytes (bs.drop 32)
    if r < frModulus ∧ s < frModulus then some ⟨r, s⟩ else none
  else none

/-- Store under a key, overwriting any previous entry (Go map assignment
`e.Signatures[pubOffset] = sig`). -/
def insertSig : List (Nat × Signature) → Nat → Signature → List (Nat × Signature)
  | [], k, v => [(k, v)]
  | (k', v') :: rest, k, v =>
      if k' = k then (k, v) :: rest else (k', v') :: insertSig rest k v

/-- Go map lookup `e.Signatures[pubOffset]` on the association-list model of
the registry. -/
def lookupSig : List (Nat × Signature) → Nat → Option Signature
  | [], _ => none
  | (k', v) :: rest, k => if k' = k then some v else lookupSig rest k

/-- The modular inverse `big.Int.ModInverse(g, n)`: the inverse of `g`
modulo `n` when `gcd(g, n) = 1`, and `none` (Go `nil`) otherwise. -/
def modInverse (g n : Nat) : Option Nat :=
  if Nat.gcd (g % n) n = 1 then
    some ((Nat.gcdA (g % n) n % (n : Int) + n) % n).toNat
  else none

/-- The hexadecimal digit characters used by Go's `%x` verb (lowercase). -/
def hexChar (d : Nat) : Char :=
  if d < 10 then Char.ofNat (48 + d) else Char.ofNat (87 + d)

/-- Rendering of a non-negative `big.Int` by the `%x` verb: lowercase hex
with no fixed-width padding, and `"0"` for zero. -/
def natHex (n : Nat) : String :=
  if n = 0 then "0" else String.mk (((Nat.digits 16 n).reverse).map hexChar)

/-- Rendering of the possibly-`nil` result of `big.Int.ModInverse` by the
`%x` verb: `big.Int.Format` prints a nil receiver as `<nil>`. -/
def wRender : Option Nat → String
  | some w => natHex w
  | none => "<nil>"

/-- One exported AIR private-input signature record (`r` and `w` fields). -/
structure AirPrivateBuiltinECDSASignatureInput where
  R : String
  W : String
deriving DecidableEq, Repr

/-- One exported AIR private-input record of the ECDSA builtin. -/
structure AirPrivateBuiltinECDSA where
  Index : Nat
  PubKey : String
  Msg : String
  SignatureInput : AirPrivateBuiltinECDSASignatureInput
deriving DecidableEq, Repr

section Builtin

variable {F : Type} [CommRing F] [DecidableEq F]

/-- Recovery of the two candidate y-coordinates of `x` (`recoverY`), i.e.
the square roots of `x³ + ALPHA·x + BETA`, failing when no square root exists.
`sqrtFn` is the external field primitive `fp.Element.Sqrt` (it returns `none`
exactly when the argument is not a square). -/
def recoverY (alpha beta : F) (sqrtFn : F → Option F) (x : F) :
    Except ECDSAError (F × F) :=
  let ax := alpha * x
  let x2 := x * x * x + ax + beta
  match sqrtFn x2 with
  | none => .error .invalidPublicKey
  | some y => .ok (y, -y)

/-- The on-curve test of the external curve library (`G1Affine.IsOnCurve`):
`y² = x³ + ALPHA·x + BETA`. -/
def isOnCurve (alpha beta : F) (x y : F) : Bool :=
  decide (y * y = x * x * x + alpha * x + beta)

/-- The checked-write verifier `ECDSA.CheckWrite`, triggered on every write
at `offset` into the builtin's segment.  The state it may touch (the signature registry and the
segment) is threaded explicitly; the result triple returns both alongside the
Go function's `error` return value.  `verify` is the external
`ecdsa.PublicKey.Verify` of the curve library, applied to the candidate
public key `(x, y)`, the message-hash bytes and the registered signature. -/
def CheckWrite (alpha beta : F) (sqrtFn : F → Option F)
    (verify : F → F → F → Signature → Except String Bool)
    (e : List (Nat × Signature)) (segment : Nat → Option (MemoryValue F))
    (offset : Nat) (value : MemoryValue F) :
    List (Nat × Signature) × (Nat → Option (MemoryValue F)) ×
      Except ECDSAError Unit :=
  let ecdsaIndex := offset % 2
  let pubOffset := offset - ecdsaIndex
  let msgOffset := pubOffset + 1
  match segment pubOffset, segment msgOffset with
  | some pub, some msg =>
    (e, segment,
      match FieldElement pub with
      | .error err => .error err
      | .ok pubX =>
        match FieldElement msg with
        | .error err => .error err
        | .ok msgField =>
          match recoverY alpha beta sqrtFn pubX with
          | .error err => .error err
          | .ok (posY, negY) =>
            if isOnCurve alpha beta pubX posY then
              match lookupSig e pubOffset with
              | none => .error .missingSignature
              | some sig =>
                match verify pubX posY msgField sig with
                | .error s => .error (.verifyError s)
                | .ok valid =>
                  if valid then .ok ()
                  else
                    match verify pubX negY msgField sig with
                    | .error s => .error (.verifyError s)
                    | .ok valid2 =>
                      if valid2 then .ok () else .error .invalidSignature
            else .error .keyNotOnCurve)
  | _, _ => (e, segment, .ok ())

/-- The registry-population entry point `ECDSA.AddSignature`: serialise
`r ‖ s` as two 32-byte big-endian values, decode the 64 bytes as a canonical
signature and store it under `pubOffset`.
`val` is the canonical integer representative of a field element (the value
its `Bytes()` encoding denotes). -/
def AddSignature (val : F → Nat) (e : List (Nat × Signature))
    (pubOffset : Nat) (r s : F) : Except ECDSAError (List (Nat × Signature)) :=
  let bytes := beBytes 32 (val r) ++ beBytes 32 (val s)
  match sigSetBytes bytes with
  | none => .error .encodingError
  | some sig => .ok (insertSig e pubOffset sig)

/-- Build one AIR private-input record from a registry entry and the two
cell values of its instance. -/
def mkRecord (val : F → Nat) (p : Nat × Signature)
    (pub msg : MemoryValue F) : AirPrivateBuiltinECDSA :=
  { Index := p.1 / 2
    PubKey := "0x" ++ natHex (val pub.Felt)
    Msg := "0x" ++ natHex (val msg.Felt)
    SignatureInput :=
      { R := "0x" ++ natHex p.2.R
        W := "0x" ++ wRender (modInverse p.2.S frModulus) } }

/-- The private-input exporter `ECDSA.GetAirPrivateInput`: walk the
signature registry, read back both cells of each instance (a forcing read: an unknown cell is an error) and emit
one record per entry.  Mirroring the Go `(values, err)` return, the records
accumulated before a read failure are returned together with the error. -/
def GetAirPrivateInput (val : F → Nat) (seg : Nat → Option (MemoryValue F)) :
    List (Nat × Signature) → List AirPrivateBuiltinECDSA × Option ECDSAError
  | [] => ([], none)
  | p :: rest =>
    match seg p.1 with
    | none => ([], some .readError)
    | some pub =>
      match seg (p.1 + 1) with
      | none => ([], some .readError)
      | some msg =>
        let r := GetAirPrivateInput val seg rest
        (mkRecord val p pub msg :: r.1, r.2)

end Builtin

/-! ### Concrete instantiation of the external primitives

A small finite field together with executable square-root and verification
functions, used to evaluate the development on closed inputs. -/

/-- An executable modular square root on `ZMod 13` (brute-force search),
satisfying the contract of the external `Sqrt` primitive. -/
def sqrt13 (a : ZMod 13) : Option (ZMod 13) :=
  ((List.range 13).find? (fun y => decide ((y : ZMod 13) * (y : ZMod 13) = a))).map
    (fun y => (y : ZMod 13))

/-- A deliberately broken square-root function (always answers `5`), used to
exercise the defensive on-curve check. -/
def sqrtBogus (_ : ZMod 13) : Option (ZMod 13) := some 5

/-- A verification primitive that accepts everything. -/
def verifyT : ZMod 13 → ZMod 13 → ZMod 13 → Signature → Except String Bool :=
  fun _ _ _ _ => .ok true

/-- A verification primitive that rejects everything. -/
def verifyF : ZMod 13 → ZMod 13 → ZMod 13 → Signature → Except String Bool :=
  fun _ _ _ _ => .ok false

/-- A felt-valued memory cell over the small field. -/
def mvW (x : ZMod 13) : MemoryValue (ZMod 13) := ⟨x, false⟩

/-- A segment whose instance at base 0 is complete: cell 0 holds `2`
(public-key x), cell 1 holds `5` (message hash). -/
def segW : Nat → Option (MemoryValue (ZMod 13)) :=
  fun i => if i = 0 then some ⟨2, false⟩ else if i = 1 then some ⟨5, false⟩ else none

/-- A segment with every cell unknown. -/
def segEmpty : Nat → Option (MemoryValue (ZMod 13)) := fun _ => none

/-- A registered signature for the instance at base 0. -/
def sigW : Signature := ⟨1, 1⟩

/-- A registry holding `sigW` at base 0. -/
def eW : List (Nat × Signature) := [(0, sigW)]

/-- A registry whose signature at base 0 has `S = 0` (not invertible). -/
def eS0 : List (Nat × Signature) := [(0, ⟨1, 0⟩)]

/-! ### Helper lemmas -/

lemma beBytes_length (k n : Nat) : (beBytes k n).length = k := by
  induction k generalizing n with
  | zero => rfl
  | succ k ih => simp [beBytes, ih]

lemma ofBytes_beBytes (k n : Nat) : ofBytes (beBytes k n) = n % 2 ^ (8 * k) := by
  induction k generalizing n with
  | zero => simp [beBytes, ofBytes, Nat.mod_one]
  | succ k ih =>
    have h1 : ofBytes (beBytes k (n / 256) ++ [n % 256])
        = ofBytes (beBytes k (n / 256)) * 256 + n % 256 := by
      simp [ofBytes, List.foldl_append]
    rw [beBytes, h1, ih]
    have h2 : (2 : Nat) ^ (8 * (k + 1)) = 256 * 2 ^ (8 * k) := by ring
    rw [h2, Nat.mod_mul]
    ring

lemma lookupSig_insertSig_self (e : List (Nat × Signature)) (k : Nat) (v : Signature) :
    lookupSig (insertSig e k v) k = some v := by
  induction e with
  | nil => simp [insertSig, lookupSig]
  | cons p rest ih =>
    obtain ⟨k', v'⟩ := p
    by_cases hk : k' = k
    · simp [insertSig, hk, lookupSig]
    · simp [insertSig, hk, lookupSig, ih]

lemma lookupSig_insertSig_ne (e : List (Nat × Signature)) (k k' : Nat) (v : Signature)
    (h : k' ≠ k) : lookupSig (insertSig e k v) k' = lookupSig e k' := by
  induction e with
  | nil => simp [insertSig, lookupSig, Ne.symm h]
  | cons p rest ih =>
    obtain ⟨k0, v0⟩ := p
    by_cases hk : k0 = k
    · subst hk
      simp [insertSig, lookupSig, Ne.symm h]
    · simp [insertSig, hk, lookupSig, ih]

lemma modInverse_mul {g n w : Nat} (hn : 1 < n) (h : modInverse g n = some w) :
    (g * w) % n = 1 := by
  haveI : NeZero n := ⟨by omega⟩
  haveI : Fact (1 < n) := ⟨hn⟩
  unfold modInverse at h
  by_cases hgcd : Nat.gcd (g % n) n = 1
  · rw [if_pos hgcd, Option.some_inj] at h
    have hnz : (n : Int) ≠ 0 := by
      simp only [ne_eq, Nat.cast_eq_zero]
      omega
    have hw : (w : Int) = (Nat.gcdA (g % n) n % (n : Int) + n) % n := by
      rw [← h]
      exact Int.toNat_of_nonneg (Int.emod_nonneg _ hnz)
    have hwz : (w : ZMod n) = ((Nat.gcdA (g % n) n : Int) : ZMod n) := by
      calc (w : ZMod n) = ((w : Int) : ZMod n) := by push_cast; ring
        _ = ((Nat.gcdA (g % n) n % (n : Int) + n : Int) : ZMod n) := by
              rw [hw, ZMod.intCast_mod]
        _ = ((Nat.gcdA (g % n) n % (n : Int) : Int) : ZMod n) + ((n : Int) : ZMod n) := by
              push_cast; ring
        _ = ((Nat.gcdA (g % n) n : Int) : ZMod n) := by
              rw [ZMod.intCast_mod]
              push_cast
              simp [ZMod.natCast_self]
    have hb : ((1 : Nat) : Int)
        = (g % n : Nat) * Nat.gcdA (g % n) n + (n : Int) * Nat.gcdB (g % n) n := by
      rw [← hgcd]
      exact Nat.gcd_eq_gcd_ab _ _
    have hz : ((g * w : Nat) : ZMod n) = 1 := by
      push_cast
      rw [hwz]
      have hgm : ((g : Nat) : ZMod n) = (((g % n : Nat) : Nat) : ZMod n) := by
        rw [ZMod.natCast_mod]
      rw [hgm]
      have hbz : (1 : ZMod n)
          = ((g % n : Nat) : ZMod n) * ((Nat.gcdA (g % n) n : Int) : ZMod n) := by
        have hc := congrArg (fun z : Int => (z : ZMod n)) hb
        simp only at hc
        push_cast at hc
        simpa [ZMod.natCast_self] using hc
      rw [← hbz]
    have hv := congrArg ZMod.val hz
    rwa [ZMod.val_natCast, ZMod.val_one] at hv
  · rw [if_neg hgcd] at h; exact absurd h (by simp)

lemma natHex_head_ne_zero (n : Nat) (hn : n ≠ 0) :
    (natHex n).data.head? ≠ some ('0' : Char) := by
  have hne : Nat.digits 16 n ≠ [] := Nat.digits_ne_nil_iff_ne_zero.mpr hn
  have hlast := Nat.getLast_digit_ne_zero 16 hn
  have hchar : ∀ d, d < 16 → d ≠ 0 → hexChar d ≠ ('0' : Char) := by decide
  unfold natHex
  rw [if_neg hn]
  show (((Nat.digits 16 n).reverse).map hexChar).head? ≠ some ('0' : Char)
  rw [List.head?_map, List.head?_reverse, List.getLast?_eq_getLast _ hne]
  intro hcon
  rw [Option.map_some', Option.some_inj] at hcon
  exact hchar _ (Nat.digits_lt_base (by norm_num) (List.getLast_mem hne)) hlast hcon

lemma recoverY_onCurve {F : Type} [CommRing F] [DecidableEq F]
    {alpha beta : F} {sqrtFn : F → Option F}
    (hsound : ∀ a y, sqrtFn a = some y → y * y = a)
    {x y ny : F} (h : recoverY alpha beta sqrtFn x = .ok (y, ny)) :
    isOnCurve alpha beta x y = true ∧ ny = -y := by
  cases hs : sqrtFn (x * x * x + alpha * x + beta) with
  | none =>
    simp only [recoverY, hs] at h
    exact Except.noConfusion h
  | some z =>
    simp only [recoverY, hs, Except.ok.injEq, Prod.mk.injEq] at h
    obtain ⟨h1, h2⟩ := h
    subst h1
    refine ⟨?_, h2.symm⟩
    simp only [isOnCurve, decide_eq_true_eq]
    exact hsound _ _ hs

lemma getAir_ok {F : Type} [CommRing F] [DecidableEq F] (val : F → Nat)
    (seg : Nat → Option (MemoryValue F)) (l : List (Nat × Signature)) :
    (∀ p ∈ l, (seg p.1).isSome ∧ (seg (p.1 + 1)).isSome) →
    (GetAirPrivateInput val seg l).2 = none ∧
    (GetAirPrivateInput val seg l).1.length = l.length ∧
    ∀ i, i < l.length →
      ∃ pq pv mv, l.get? i = some pq ∧ seg pq.1 = some pv ∧
        seg (pq.1 + 1) = some mv ∧
        (GetAirPrivateInput val seg l).1.get? i = some (mkRecord val pq pv mv) := by
  induction l with
  | nil =>
    intro _
    refine ⟨rfl, rfl, ?_⟩
    intro i h
    exact absurd h (by simp)
  | cons p rest ih =>
    intro hall
    obtain ⟨hp1, hp2⟩ := hall p (List.mem_cons_self p rest)
    obtain ⟨pv, hpv⟩ := Option.isSome_iff_exists.mp hp1
    obtain ⟨mv, hmv⟩ := Option.isSome_iff_exists.mp hp2
    have ihr := ih (fun q hq => hall q (List.mem_cons_of_mem p hq))
    have hred : GetAirPrivateInput val seg (p :: rest)
        = (mkRecord val p pv mv :: (GetAirPrivateInput val seg rest).1,
           (GetAirPrivateInput val seg rest).2) := by
      simp only [GetAirPrivateInput, hpv, hmv]
    refine ⟨by rw [hred]; exact ihr.1, by rw [hred]; simpa using ihr.2.1, ?_⟩
    intro i h
    match i with
    | 0 => exact ⟨p, pv, mv, rfl, hpv, hmv, by rw [hred]; rfl⟩
    | Nat.succ j =>
      have hj : j < rest.length := by simpa using h
      obtain ⟨pq, pv', mv', h0', h1', h2', h3'⟩ := ihr.2.2 j hj
      refine ⟨pq, pv', mv', by simpa using h0', h1', h2', ?_⟩
      rw [hred]
      simpa using h3'

/-! ### Claim theorems -/

/-- C3: for every write at `offset`, `CheckWrite` computes the instance base
as `offset - (offset % 2)`, peeks the two cells `base` and `base + 1` without
forcing them, and if either is still unknown it returns success immediately —
no verification, no error, and no state change — regardless of which of the
two cells was written first (the written value plays no role). -/
theorem checkWrite_awaiting_both {F : Type} [CommRing F] [DecidableEq F]
    (alpha beta : F) (sqrtFn : F → Option F)
    (verify : F → F → F → Signature → Except String Bool)
    (e : List (Nat × Signature)) (segment : Nat → Option (MemoryValue F))
    (offset : Nat) (value : MemoryValue F)
    (h : segment (offset - offset % 2) = none ∨
      segment (offset - offset % 2 + 1) = none) :
    CheckWrite alpha beta sqrtFn verify e segment offset value
      = (e, segment, .ok ()) := by
  rcases h with h | h
  · cases hm : segment (offset - offset % 2 + 1) <;>
      simp [CheckWrite, h, hm]
  · cases hp : segment (offset - offset % 2) <;>
      simp [CheckWrite, h, hp]

/-- C3 witness: a write of a field element at offset 1 while cell 0 is still
unknown is a success with no action. -/
theorem checkWrite_awaiting_both_witness :
    CheckWrite 1 3 sqrt13 verifyT eW segEmpty 1 (mvW 5)
      = (eW, segEmpty, .ok ()) :=
  checkWrite_awaiting_both 1 3 sqrt13 verifyT eW segEmpty 1 (mvW 5)
    (Or.inl rfl)

/-- C8: `CheckWrite` never mutates the builtin's state: whatever it returns,
the signature registry and the memory segment come back unchanged — the
builtin commits no derived value to memory. -/
theorem checkWrite_frame {F : Type} [CommRing F] [DecidableEq F]
    (alpha beta : F) (sqrtFn : F → Option F)
    (verify : F → F → F → Signature → Except String Bool)
    (e : List (Nat × Signature)) (segment : Nat → Option (MemoryValue F))
    (offset : Nat) (value : MemoryValue F) :
    (CheckWrite alpha beta sqrtFn verify e segment offset value).1 = e ∧
    (CheckWrite alpha beta sqrtFn verify e segment offset value).2.1
      = segment := by
  cases hp : segment (offset - offset % 2) <;>
    cases hm : segment (offset - offset % 2 + 1) <;>
    simp [CheckWrite, hp, hm]

/-- C9: the value argument of `CheckWrite` is never inspected and the outcome
depends only on the contents of the two cells of the instance and on the
registry entry at the instance base: two calls whose segments agree at
`base` and `base + 1` and whose registries agree at `base` return the same
result, for any two written values. -/
theorem checkWrite_value_independent {F : Type} [CommRing F] [DecidableEq F]
    (alpha beta : F) (sqrtFn : F → Option F)
    (verify : F → F → F → Signature → Except String Bool)
    (e1 e2 : List (Nat × Signature))
    (seg1 seg2 : Nat → Option (MemoryValue F)) (offset : Nat)
    (v1 v2 : MemoryValue F)
    (h1 : seg1 (offset - offset % 2) = seg2 (offset - offset % 2))
    (h2 : seg1 (offset - offset % 2 + 1) = seg2 (offset - offset % 2 + 1))
    (h3 : lookupSig e1 (offset - offset % 2)
      = lookupSig e2 (offset - offset % 2)) :
    (CheckWrite alpha beta sqrtFn verify e1 seg1 offset v1).2.2
      = (CheckWrite alpha beta sqrtFn verify e2 seg2 offset v2).2.2 := by
  cases hp : seg2 (offset - offset % 2) <;>
    cases hm : seg2 (offset - offset % 2 + 1) <;>
    simp only [CheckWrite, h1, h2, h3, hp, hm]

/-- C9 witness: two writes of different values at offset 0 over agreeing
state return the same result. -/
theorem checkWrite_value_independent_witness :
    (CheckWrite 1 3 sqrt13 verifyT eW segW 0 (mvW 9)).2.2
      = (CheckWrite 1 3 sqrt13 verifyT eW segW 0 (mvW 11)).2.2 :=
  checkWrite_value_independent 1 3 sqrt13 verifyT eW eW segW segW 0
    (mvW 9) (mvW 11) rfl rfl rfl

/-- C2: with a sound and complete square-root primitive, for every field
element `x` such that `x³ + ALPHA·x + BETA` has a square root, `recoverY x`
returns a pair `(y, -y)` whose both components square to
`x³ + ALPHA·x + BETA` (both candidates satisfy the curve equation); and for
every `x` without a square root it fails with the `InvalidPublicKey`
error. -/
theorem recoverY_candidates {F : Type} [CommRing F] [DecidableEq F]
    (alpha beta : F) (sqrtFn : F → Option F)
    (hsound : ∀ a z, sqrtFn a = some z → z * z = a)
    (hcomp : ∀ a, sqrtFn a = none → ∀ z, z * z ≠ a) (x : F) :
    ((∃ z, z * z = x * x * x + alpha * x + beta) →
      ∃ y, recoverY alpha beta sqrtFn x = .ok (y, -y) ∧
        y * y = x * x * x + alpha * x + beta ∧
        (-y) * (-y) = x * x * x + alpha * x + beta) ∧
    ((∀ z : F, z * z ≠ x * x * x + alpha * x + beta) →
      recoverY alpha beta sqrtFn x = .error .invalidPublicKey) := by
  cases hs : sqrtFn (x * x * x + alpha * x + beta) with
  | none =>
    constructor
    · rintro ⟨z, hz⟩
      exact absurd hz (hcomp _ hs z)
    · intro _
      simp [recoverY, hs]
  | some y =>
    constructor
    · intro _
      refine ⟨y, by simp [recoverY, hs], hsound _ _ hs, ?_⟩
      have := hsound _ _ hs
      calc (-y) * (-y) = y * y := by ring
        _ = x * x * x + alpha * x + beta := this
    · intro hz
      exact absurd (hsound _ _ hs) (hz y)

/-- C2 witness: over the small field, `x = 2` has a root of the curve
polynomial and recovery succeeds with `(0, -0)`; `x = 1` has none and
recovery fails with `InvalidPublicKey`. -/
theorem recoverY_candidates_witness :
    (∃ y, recoverY (1 : ZMod 13) 3 sqrt13 2 = .ok (y, -y) ∧
      y * y = 2 * 2 * 2 + 1 * 2 + 3 ∧ (-y) * (-y) = 2 * 2 * 2 + 1 * 2 + 3) ∧
    recoverY (1 : ZMod 13) 3 sqrt13 1 = .error .invalidPublicKey :=
  ⟨(recoverY_candidates 1 3 sqrt13 (by decide) (by decide) 2).1
      ⟨0, by decide⟩,
   (recoverY_candidates 1 3 sqrt13 (by decide) (by decide) 1).2
      (by decide)⟩

/-- C7: after a successful `recoverY`, `CheckWrite` checks that the point
`(x, posY)` is on the curve and fails with the `KeyNotOnCurve` error when it
is not; and under the precondition that the square-root primitive is sound
(so a successful recovery satisfies `y² = x³ + ALPHA·x + BETA`), that error
branch is unreachable: the recovered positive candidate always passes the
on-curve test. -/
theorem checkWrite_key_on_curve {F : Type} [CommRing F] [DecidableEq F]
    (alpha beta : F) (sqrtFn : F → Option F)
    (verify : F → F → F → Signature → Except String Bool) :
    (∀ (e : List (Nat × Signature)) (segment : Nat → Option (MemoryValue F))
        (offset : Nat) (value : MemoryValue F) (x m y ny : F),
      segment (offset - offset % 2) = some ⟨x, false⟩ →
      segment (offset - offset % 2 + 1) = some ⟨m, false⟩ →
      recoverY alpha beta sqrtFn x = .ok (y, ny) →
      isOnCurve alpha beta x y = false →
      (CheckWrite alpha beta sqrtFn verify e segment offset value).2.2
        = .error .keyNotOnCurve) ∧
    ((∀ a z, sqrtFn a = some z → z * z = a) →
      ∀ x y ny : F, recoverY alpha beta sqrtFn x = .ok (y, ny) →
        isOnCurve alpha beta x y = true) := by
  constructor
  · intro e segment offset value x m y ny hpub hmsg hrec hcurve
    simp [CheckWrite, hpub, hmsg, FieldElement, hrec, hcurve]
  · intro hsound x y ny hrec
    exact (recoverY_onCurve hsound hrec).1

/-- C7 witness: with a broken square-root function the defensive branch
fires and `CheckWrite` fails with `KeyNotOnCurve`; with the genuine
square-root function the recovered candidate is on the curve. -/
theorem checkWrite_key_on_curve_witness :
    (CheckWrite 1 3 sqrtBogus verifyT eW segW 0 (mvW 9)).2.2
      = .error .keyNotOnCurve ∧
    isOnCurve (1 : ZMod 13) 3 2 0 = true :=
  ⟨(checkWrite_key_on_curve 1 3 sqrtBogus verifyT).1 eW segW 0 (mvW 9)
      2 5 5 (-5) rfl rfl rfl (by decide),
   (checkWrite_key_on_curve 1 3 sqrt13 verifyT).2 (by decide) 2 0 (-0)
      rfl⟩

/-- C4: when both cells of an instance are known field elements, the
x-coordinate passes y-recovery and the on-curve check, but the registry has
no entry at the instance base, `CheckWrite` fails with the
`MissingSignature` error. -/
theorem checkWrite_missing_signature {F : Type} [CommRing F] [DecidableEq F]
    (alpha beta : F) (sqrtFn : F → Option F)
    (verify : F → F → F → Signature → Except String Bool)
    (e : List (Nat × Signature)) (segment : Nat → Option (MemoryValue F))
    (offset : Nat) (value : MemoryValue F) (x m y ny : F)
    (hpub : segment (offset - offset % 2) = some ⟨x, false⟩)
    (hmsg : segment (offset - offset % 2 + 1) = some ⟨m, false⟩)
    (hrec : recoverY alpha beta sqrtFn x = .ok (y, ny))
    (hcurve : isOnCurve alpha beta x y = true)
    (hsig : lookupSig e (offset - offset % 2) = none) :
    (CheckWrite alpha beta sqrtFn verify e segment offset value).2.2
      = .error .missingSignature := by
  simp [CheckWrite, hpub, hmsg, FieldElement, hrec, hcurve, hsig]

/-- C4 witness: a complete instance with an empty registry fails with
`MissingSignature`. -/
theorem checkWrite_missing_signature_witness :
    (CheckWrite 1 3 sqrt13 verifyT [] segW 0 (mvW 9)).2.2
      = .error .missingSignature :=
  checkWrite_missing_signature 1 3 sqrt13 verifyT [] segW 0 (mvW 9)
    2 5 0 (-0) rfl rfl rfl (by decide) rfl

/-- C1: for an instance whose two cells are known field elements, whose
x-coordinate yields the candidate roots `(y, ny)` under a sound square-root
primitive, and whose base has a registered signature, `CheckWrite` succeeds
exactly when ECDSA verification succeeds under the positive candidate or,
failing that, under the negative candidate (tried in that order), and it
returns the `InvalidSignature` error exactly when verification fails under
both candidates. -/
theorem checkWrite_dual_candidates {F : Type} [CommRing F] [DecidableEq F]
    (alpha beta : F) (sqrtFn : F → Option F)
    (verify : F → F → F → Signature → Except String Bool)
    (e : List (Nat × Signature)) (segment : Nat → Option (MemoryValue F))
    (offset : Nat) (value : MemoryValue F) (x m y ny : F) (sig : Signature)
    (b1 b2 : Bool)
    (hsound : ∀ a z, sqrtFn a = some z → z * z = a)
    (hpub : segment (offset - offset % 2) = some ⟨x, false⟩)
    (hmsg : segment (offset - offset % 2 + 1) = some ⟨m, false⟩)
    (hrec : recoverY alpha beta sqrtFn x = .ok (y, ny))
    (hsig : lookupSig e (offset - offset % 2) = some sig)
    (hv1 : verify x y m sig = .ok b1)
    (hv2 : verify x ny m sig = .ok b2) :
    ((CheckWrite alpha beta sqrtFn verify e segment offset value).2.2
        = .ok () ↔ (b1 = true ∨ b2 = true)) ∧
    ((CheckWrite alpha beta sqrtFn verify e segment offset value).2.2
        = .error .invalidSignature ↔ (b1 = false ∧ b2 = false)) := by
  have hcurve : isOnCurve alpha beta x y = true :=
    (recoverY_onCurve hsound hrec).1
  cases b1 <;> cases b2 <;>
    simp [CheckWrite, hpub, hmsg, FieldElement, hrec, hcurve, hsig, hv1, hv2]

/-- C1 witness: with a verifier that rejects both candidates the completing
write fails with `InvalidSignature`; with one accepting the positive
candidate it succeeds. -/
theorem checkWrite_dual_candidates_witness :
    (CheckWrite 1 3 sqrt13 verifyF eW segW 0 (mvW 9)).2.2
      = .error .invalidSignature ∧
    (CheckWrite 1 3 sqrt13 verifyT eW segW 0 (mvW 9)).2.2 = .ok () :=
  ⟨(checkWrite_dual_candidates 1 3 sqrt13 verifyF eW segW 0 (mvW 9)
      2 5 0 (-0) sigW false false (by decide) rfl rfl rfl rfl rfl
      rfl).2.mpr ⟨rfl, rfl⟩,
   (checkWrite_dual_candidates 1 3 sqrt13 verifyT eW segW 0 (mvW 9)
      2 5 0 (-0) sigW true true (by decide) rfl rfl rfl rfl rfl
      rfl).1.mpr (Or.inl rfl)⟩

/-- C6: `AddSignature` encodes `r` and `s` as fixed 32-byte big-endian
values, concatenates them to a 64-byte buffer and decodes it as a canonical
signature: it returns the `EncodingError` exactly when a component is not a
canonical scalar (not below the scalar-field order), and otherwise stores the
decoded signature in the registry under the given base key, overwriting any
previous entry for that key and leaving every other key unchanged.  (`val`
gives the canonical integer representative of a field element, which always
fits in 32 bytes.) -/
theorem addSignature_canonical_store {F : Type} [CommRing F] [DecidableEq F]
    (val : F → Nat) (e : List (Nat × Signature)) (k : Nat) (r s : F)
    (hr : val r < 2 ^ 256) (hs : val s < 2 ^ 256) :
    (AddSignature val e k r s
      = if val r < frModulus ∧ val s < frModulus
          then .ok (insertSig e k ⟨val r, val s⟩)
          else .error .encodingError) ∧
    (∀ e', AddSignature val e k r s = .ok e' →
      lookupSig e' k = some ⟨val r, val s⟩ ∧
      ∀ k', k' ≠ k → lookupSig e' k' = lookupSig e k') := by
  have hpow : (2 : Nat) ^ (8 * 32) = 2 ^ 256 := by norm_num
  have ht : (beBytes 32 (val r) ++ beBytes 32 (val s)).take 32
      = beBytes 32 (val r) := by
    have h := List.take_left (beBytes 32 (val r)) (beBytes 32 (val s))
    rwa [beBytes_length] at h
  have hd : (beBytes 32 (val r) ++ beBytes 32 (val s)).drop 32
      = beBytes 32 (val s) := by
    have h := List.drop_left (beBytes 32 (val r)) (beBytes 32 (val s))
    rwa [beBytes_length] at h
  have hvr : ofBytes (beBytes 32 (val r)) = val r := by
    rw [ofBytes_beBytes, hpow]
    exact Nat.mod_eq_of_lt hr
  have hvs : ofBytes (beBytes 32 (val s)) = val s := by
    rw [ofBytes_beBytes, hpow]
    exact Nat.mod_eq_of_lt hs
  have hbytes : sigSetBytes (beBytes 32 (val r) ++ beBytes 32 (val s))
      = if val r < frModulus ∧ val s < frModulus
          then some ⟨val r, val s⟩ else none := by
    simp [sigSetBytes, beBytes_length, ht, hd, hvr, hvs]
  have hadd : AddSignature val e k r s
      = if val r < frModulus ∧ val s < frModulus
          then .ok (insertSig e k ⟨val r, val s⟩)
          else .error .encodingError := by
    simp only [AddSignature, hbytes]
    by_cases hc : val r < frModulus ∧ val s < frModulus
    · rw [if_pos hc, if_pos hc]
    · rw [if_neg hc, if_neg hc]
  refine ⟨hadd, ?_⟩
  intro e' he'
  rw [hadd] at he'
  by_cases hc : val r < frModulus ∧ val s < frModulus
  · rw [if_pos hc] at he'
    have he2 : e' = insertSig e k ⟨val r, val s⟩ :=
      (Except.ok.inj he').symm
    subst he2
    exact ⟨lookupSig_insertSig_self e k _,
      fun k' hk' => lookupSig_insertSig_ne e k k' _ hk'⟩
  · rw [if_neg hc] at he'
    exact Except.noConfusion he'

/-- C6 witness: registering `r = 2`, `s = 3` over the small field stores the
decoded canonical signature under base 0. -/
theorem addSignature_canonical_store_witness :
    AddSignature ZMod.val ([] : List (Nat × Signature)) 0 (2 : ZMod 13) 3
      = if (2 : ZMod 13).val < frModulus ∧ (3 : ZMod 13).val < frModulus
          then .ok (insertSig [] 0 ⟨(2 : ZMod 13).val, (3 : ZMod 13).val⟩)
          else .error .encodingError :=
  (addSignature_canonical_store ZMod.val [] 0 2 3 (by decide) (by decide)).1

/-- C5: for a registry whose instances all have both cells known in the
segment, `GetAirPrivateInput` succeeds (no error) and returns exactly one
record per entry; the i-th record carries `index = base / 2`, the pubkey and
message cells rendered as `0x`-prefixed lowercase hex of their big-integer
values, `r` rendered as hex of the registered signature's `R`, and `w`
rendered from `s⁻¹ mod N` for the scalar-field order `N = frModulus`; for
every signature with invertible `s` that inverse exists and satisfies
`(s * w) % N = 1`; and the hex rendering carries no fixed-width padding
(no leading zero digit for a non-zero value). -/
theorem exportAir_records {F : Type} [CommRing F] [DecidableEq F]
    (val : F → Nat) (seg : Nat → Option (MemoryValue F))
    (e : List (Nat × Signature))
    (hall : ∀ p ∈ e, (seg p.1).isSome ∧ (seg (p.1 + 1)).isSome) :
    (GetAirPrivateInput val seg e).2 = none ∧
    (GetAirPrivateInput val seg e).1.length = e.length ∧
    (∀ i, i < e.length →
      ∃ pq pv mv, e.get? i = some pq ∧ seg pq.1 = some pv ∧
        seg (pq.1 + 1) = some mv ∧
        (GetAirPrivateInput val seg e).1.get? i = some
          { Index := pq.1 / 2
            PubKey := "0x" ++ natHex (val pv.Felt)
            Msg := "0x" ++ natHex (val mv.Felt)
            SignatureInput :=
              { R := "0x" ++ natHex pq.2.R
                W := "0x" ++ wRender (modInverse pq.2.S frModulus) } }) ∧
    (∀ p : Nat × Signature, Nat.gcd p.2.S frModulus = 1 →
      ∃ w, modInverse p.2.S frModulus = some w ∧
        (p.2.S * w) % frModulus = 1) ∧
    (∀ n : Nat, n ≠ 0 → (natHex n).data.head? ≠ some ('0' : Char)) := by
  obtain ⟨h1, h2, h3⟩ := getAir_ok val seg e hall
  refine ⟨h1, h2, ?_, ?_, natHex_head_ne_zero⟩
  · intro i hi
    obtain ⟨pq, pv, mv, h0, ha, hb, hc⟩ := h3 i hi
    exact ⟨pq, pv, mv, h0, ha, hb, by rw [hc]; rfl⟩
  · intro p hgcd
    have hgcd' : Nat.gcd (p.2.S % frModulus) frModulus = 1 := by
      rw [← Nat.gcd_rec, Nat.gcd_comm]
      exact hgcd
    have hsome : modInverse p.2.S frModulus
        = some ((Nat.gcdA (p.2.S % frModulus) frModulus % (frModulus : Int)
            + frModulus) % frModulus).toNat := by
      simp [modInverse, hgcd']
    exact ⟨_, hsome, modInverse_mul (by norm_num [frModulus]) hsome⟩

/-- C5 witness: exporting the one verified instance of the small example
yields one record and no error. -/
theorem exportAir_records_witness :
    (GetAirPrivateInput ZMod.val segW eW).2 = none ∧
    (GetAirPrivateInput ZMod.val segW eW).1.length = eW.length :=
  ⟨(exportAir_records ZMod.val segW eW (by decide)).1,
   (exportAir_records ZMod.val segW eW (by decide)).2.1⟩

/-- C10: when a registered signature's `s` component is not invertible
modulo the scalar-field order (for example `s = 0`), `GetAirPrivateInput`
still returns success rather than an error, and the record it emits for that
instance carries a `w` string rendered from the nil result of the modular
inverse (`"0x<nil>"`) instead of a valid hex value. -/
theorem exportAir_nil_w {F : Type} [CommRing F] [DecidableEq F]
    (val : F → Nat) (seg : Nat → Option (MemoryValue F))
    (e : List (Nat × Signature)) (k : Nat) (sig : Signature)
    (hall : ∀ p ∈ e, (seg p.1).isSome ∧ (seg (p.1 + 1)).isSome)
    (hin : (k, sig) ∈ e)
    (hgcd : Nat.gcd (sig.S % frModulus) frModulus ≠ 1) :
    (GetAirPrivateInput val seg e).2 = none ∧
    ∃ q ∈ (GetAirPrivateInput val seg e).1,
      q.SignatureInput.W = "0x<nil>" := by
  obtain ⟨h1, h2, h3⟩ := getAir_ok val seg e hall
  refine ⟨h1, ?_⟩
  obtain ⟨i, hi⟩ := List.mem_iff_get?.mp hin
  have hlt : i < e.length := by
    obtain ⟨hl, -⟩ := List.get?_eq_some.mp hi
    exact hl
  obtain ⟨pq, pv, mv, h0, ha, hb, hc⟩ := h3 i hlt
  have hpq : pq = (k, sig) := by
    rw [h0] at hi
    exact Option.some_inj.mp hi
  subst hpq
  refine ⟨mkRecord val (k, sig) pv mv, List.get?_mem hc, ?_⟩
  have hnone : modInverse sig.S frModulus = none := by
    simp [modInverse, hgcd]
  show "0x" ++ wRender (modInverse sig.S frModulus) = "0x<nil>"
  rw [hnone]
  rfl

/-- C10 witness: the registry with `s = 0` at base 0 exports successfully
and its record's `w` field is the string `0x<nil>`. -/
theorem exportAir_nil_w_witness :
    (GetAirPrivateInput ZMod.val segW eS0).2 = none ∧
    ∃ q ∈ (GetAirPrivateInput ZMod.val segW eS0).1,
      q.SignatureInput.W = "0x<nil>" :=
  exportAir_nil_w ZMod.val segW eS0 0 ⟨1, 0⟩ (by decide) (by decide)
    (by decide)

end CairoECDSA
